import Mathlib

/-!
Verification of the semantic projection and similarity pipeline of the
life-trajectory-embeddings repository (src/backend/embeddings.py).

Modelling conventions:
- Python floats are idealised as exact numbers: 3D coordinates are rational,
  Euclidean distances (numpy.linalg.norm) are real numbers Real.sqrt of a
  rational sum of squares.
- Python dicts for life events become a structure with Option-valued fields;
  a `none` field models an absent key, matching dict.get defaults.
- numpy.argsort is specified only through its documented contract
  (SortsDistances below): it returns a permutation of 0..N-1 along which the
  distances are non-decreasing.  The default kind (introsort) does not
  guarantee the order of tied keys, so no similarity-search theorem relies
  on a tie order; the executable definition argsortDist merely picks one
  admissible output.  Comparisons between distances are decided through the
  squared distances (Real.sqrt is strictly monotone on nonnegative reals),
  which keeps every definition computable.
- Python's `sorted` is a stable sort; `List.insertionSort` with a total
  preorder on the sort key produces the same (unique) stable result.
- `fallible` paths (project_to_3d raising RuntimeError) are modelled with
  Except; find_nearest_cluster returning None is modelled with Option.
-/

namespace LifeTraj

/-- A 3D coordinate [x, y, z], the output type of the reduction pipeline and
the stored representation of every corpus person. -/
structure Pt where
  x : ℚ
  y : ℚ
  z : ℚ
deriving DecidableEq

/-- The all-zero point, used only as the (never reached) default of list
lookups with in-range indices. -/
def pt0 : Pt := ⟨0, 0, 0⟩

/-- Squared Euclidean distance between two 3D points. -/
def distSq (p q : Pt) : ℚ :=
  (p.x - q.x) ^ 2 + (p.y - q.y) ^ 2 + (p.z - q.z) ^ 2

/-- Euclidean distance, i.e. numpy.linalg.norm of the componentwise
difference of two 3D points. -/
noncomputable def dist3 (p q : Pt) : ℝ :=
  Real.sqrt ((distSq p q : ℚ) : ℝ)

theorem distSq_nonneg (p q : Pt) : 0 ≤ distSq p q := by
  have hx := sq_nonneg (p.x - q.x)
  have hy := sq_nonneg (p.y - q.y)
  have hz := sq_nonneg (p.z - q.z)
  unfold distSq
  linarith

theorem dist3_lt_iff (p a b : Pt) :
    dist3 p a < dist3 p b ↔ distSq p a < distSq p b := by
  constructor
  · intro h
    by_contra hle
    push_neg at hle
    have : dist3 p b ≤ dist3 p a := by
      apply Real.sqrt_le_sqrt
      exact_mod_cast hle
    exact absurd h (not_lt.mpr this)
  · intro h
    apply Real.sqrt_lt_sqrt
    · exact_mod_cast distSq_nonneg p a
    · exact_mod_cast h

theorem dist3_eq_iff (p a b : Pt) :
    dist3 p a = dist3 p b ↔ distSq p a = distSq p b := by
  unfold dist3
  rw [Real.sqrt_inj (by exact_mod_cast distSq_nonneg p a)
    (by exact_mod_cast distSq_nonneg p b)]
  exact_mod_cast Iff.rfl

/-! ## Narrative synthesizer (EmbeddingService.create_narrative_from_events) -/

/-- A life event dictionary.  A `none` field models a key that is absent from
the Python dict (so `event.get(key, default)` returns the default).
Dates are modelled as proleptic-Gregorian ordinals (naturals); the value 0
plays the role of datetime.min.date(). -/
structure LifeEvent where
  event_type : Option String := none
  event_title : Option String := none
  organization : Option String := none
  start_date : Option Nat := none
deriving DecidableEq

/-- Python `event.get('event_type', 'other')`. -/
def eventType (e : LifeEvent) : String := e.event_type.getD "other"

/-- Python `event.get('event_title', '')`. -/
def titleOf (e : LifeEvent) : String := e.event_title.getD ""

/-- Python `event.get('organization', '')`. -/
def orgOf (e : LifeEvent) : String := e.organization.getD ""

/-- Python `e.get('start_date') or datetime.min.date()`, the sort key of the
education and employment groups. -/
def startKey (e : LifeEvent) : Nat := e.start_date.getD 0

/-- Python `sep.join(parts)`. -/
def pyJoin (sep : String) : List String → String
  | [] => ""
  | [x] => x
  | x :: y :: xs => x ++ sep ++ pyJoin sep (y :: xs)

/-- Python `sorted(events, key=lambda e: e.get('start_date') or
datetime.min.date())`.  Python's sorted is stable; a stable sort's output is
uniquely determined by the key order, and insertion sort with the reflexive
total key preorder computes exactly that output. -/
def sortByStart (l : List LifeEvent) : List LifeEvent :=
  List.insertionSort (fun a b => startKey a ≤ startKey b) l

/-- The label built for one education event (lines 87-92): "{title} from
{organization}" when both are truthy, the bare title when only the title is
truthy, and no label otherwise (there is no organization-only branch). -/
def eduLabel (e : LifeEvent) : Option String :=
  if titleOf e ≠ "" ∧ orgOf e ≠ "" then some (titleOf e ++ " from " ++ orgOf e)
  else if titleOf e ≠ "" then some (titleOf e)
  else none

/-- The labels of the education group, in sorted order. -/
def eduParts (events : List LifeEvent) : List String :=
  (sortByStart (events.filter (fun e => eventType e == "education"))).filterMap eduLabel

/-- The education sentence appended to narrative_parts (lines 94-99): nothing
when there are no labels, "Studied {item}." for a single label, the
comma-plus-"and" join otherwise. -/
def eduSentencePart (parts : List String) : List String :=
  if parts.length = 0 then []
  else if parts.length = 1 then ["Studied " ++ parts.getD 0 "" ++ "."]
  else ["Educational background includes " ++ pyJoin ", " parts.dropLast
        ++ " and " ++ parts.getLastD "" ++ "."]

/-- The label built for one employment event (lines 107-114). -/
def empLabel (e : LifeEvent) : Option String :=
  if titleOf e ≠ "" ∧ orgOf e ≠ "" then some (titleOf e ++ " at " ++ orgOf e)
  else if orgOf e ≠ "" then some ("worked at " ++ orgOf e)
  else if titleOf e ≠ "" then some (titleOf e)
  else none

/-- The labels of the employment group, in sorted order. -/
def empParts (events : List LifeEvent) : List String :=
  (sortByStart (events.filter (fun e => eventType e == "employment"))).filterMap empLabel

/-- The career sentence appended to narrative_parts (lines 116-122). -/
def empSentencePart (parts : List String) : List String :=
  if parts.length = 0 then []
  else if parts.length ≤ 3 then ["Career includes " ++ pyJoin ", " parts ++ "."]
  else ["Career includes " ++ pyJoin ", " (parts.take 3) ++ " and "
        ++ toString (parts.length - 3) ++ " other positions."]

/-- The award group of an event list. -/
def awardGroup (events : List LifeEvent) : List LifeEvent :=
  events.filter (fun e => eventType e == "award")

/-- The truthy titles of the award group, as collected by the comprehension
of line 128. -/
def awardNames (events : List LifeEvent) : List String :=
  (awardGroup events).filterMap
    (fun e => if titleOf e ≠ "" then some (titleOf e) else none)

/-- The awards sentence appended to narrative_parts (lines 125-133).  The
branch is taken on the total number of events in the award group; only the
≤ 5 branch filters for truthy titles. -/
def awardSentencePart (events : List LifeEvent) : List String :=
  if (awardGroup events).length = 0 then []
  else if (awardGroup events).length ≤ 5 then
    if (awardNames events).length = 0 then []
    else ["Received awards: " ++ pyJoin ", " (awardNames events) ++ "."]
  else ["Received " ++ toString (awardGroup events).length ++ " awards and honors."]

/-- The first-seen order of a list of keys, mirroring the insertion order of
the Python event_types dict. -/
def firstSeen (l : List String) : List String :=
  l.foldl (fun acc t => if t ∈ acc then acc else acc ++ [t]) []

/-- One sentence per remaining event type (lines 136-140), in the order the
types were first encountered. -/
def otherSentenceParts (events : List LifeEvent) : List String :=
  ((firstSeen (events.map eventType)).filter
      (fun t => ¬ (t = "education" ∨ t = "employment" ∨ t = "award"))).filterMap
    (fun t =>
      let n := (events.filter (fun e => eventType e == t)).length
      if n = 0 then none
      else some ("Notable " ++ t ++ " events: " ++ toString n ++ "."))

/-- Python string truthiness of an optional argument defaulting to None:
truthy exactly for a present, non-empty string. -/
def pyTruthy (o : Option String) : Bool := o.getD "" != ""

/-- The opening biography sentence appended when name or description is
truthy (lines 63-69). -/
def bioPart (name description : Option String) : List String :=
  if pyTruthy name || pyTruthy description then
    let base := if pyTruthy name then name.getD "" else "This person"
    if pyTruthy description then [base ++ " is " ++ description.getD "" ++ "."]
    else [base ++ "."]
  else []

/-- The narrative_parts list in the order the source appends to it:
biography, education, employment, awards, remaining types. -/
def narrativeParts (events : List LifeEvent) (name description : Option String) :
    List String :=
  bioPart name description
    ++ eduSentencePart (eduParts events)
    ++ empSentencePart (empParts events)
    ++ awardSentencePart events
    ++ otherSentenceParts events

/-- The fixed fallback sentence of line 147. -/
def fallbackNarrative : String :=
  "This person has a diverse background with various life experiences."

/-- EmbeddingService.create_narrative_from_events (lines 48-149): join the
parts with single spaces; if the result strips to the empty string (i.e.
every character is whitespace) replace it with the fallback sentence. -/
def create_narrative_from_events (events : List LifeEvent)
    (name description : Option String) : String :=
  let narrative := pyJoin " " (narrativeParts events name description)
  if narrative.data.all Char.isWhitespace then fallbackNarrative else narrative

/-- The string s contains sub as a contiguous substring. -/
def strContains (s sub : String) : Prop :=
  ∃ p q : String, s = p ++ (sub ++ q)

/-! ## Reduction pipeline state (lines 25-46 and 167-186) -/

/-- The cross-call state of EmbeddingService: the two opaque fitted reduction
models (none while unset, as in __init__) and the load flag.  The fitted
models are modelled as pure functions: PCA maps a 768D embedding to a 50D
vector, UMAP maps that to a 3D point. -/
structure EmbeddingService where
  pca_model : Option (List ℚ → List ℚ)
  umap_model : Option (List ℚ → Pt)
  models_loaded : Bool

/-- The state established by __init__ (lines 32-34): no models, flag down. -/
def initService : EmbeddingService :=
  { pca_model := none, umap_model := none, models_loaded := false }

/-- EmbeddingService.load_reduction_models (lines 36-46): store both models
and raise the flag. -/
def load_reduction_models (s : EmbeddingService) (pca : List ℚ → List ℚ)
    (umap : List ℚ → Pt) : EmbeddingService :=
  { s with pca_model := some pca, umap_model := some umap, models_loaded := true }

/-- The failure modes of project_to_3d: the RuntimeError of line 178, and the
(unreachable after a load) attribute error of calling transform on a None
model. -/
inductive ProjError where
  | modelNotReady
  | modelsMissing
deriving DecidableEq

/-- EmbeddingService.project_to_3d (lines 167-186): guard on the load flag,
then apply PCA and then UMAP. -/
def project_to_3d (s : EmbeddingService) (v : List ℚ) : Except ProjError Pt :=
  if s.models_loaded = false then Except.error ProjError.modelNotReady
  else
    match s.pca_model, s.umap_model with
    | some pca, some umap => Except.ok (umap (pca v))
    | _, _ => Except.error ProjError.modelsMissing

/-! ## Cluster locator (EmbeddingService.find_nearest_cluster, lines 188-215) -/

/-- A cluster information record; avg_coordinates is the centroid the
distance is measured to. -/
structure ClusterInfo where
  cluster_id : ℤ
  cluster_label : String
  avg_coordinates : Pt
deriving DecidableEq

/-- Decidable comparison of two Euclidean distances from p.  Because
Real.sqrt is strictly monotone on nonnegative reals, the comparison is
decided on the squared distances; distLtB_iff states the equivalence. -/
def distLtB (p a b : Pt) : Bool := decide (distSq p a < distSq p b)

/-- One iteration of the scan of lines 202-213.  The running min_distance of
the source always equals the distance from p to the stored best cluster's
centroid, so the accumulator keeps only that cluster (none models the
initial min_distance = inf, against which any distance compares smaller). -/
def nearestStep (p : Pt) (best : Option ClusterInfo) (c : ClusterInfo) :
    Option ClusterInfo :=
  match best with
  | none => some c
  | some b =>
      if distLtB p c.avg_coordinates b.avg_coordinates then some c else some b

/-- EmbeddingService.find_nearest_cluster: strict-less-than minimum scan over
the clusters, returning None for an empty list. -/
def find_nearest_cluster (p : Pt) (clusters : List ClusterInfo) :
    Option ClusterInfo :=
  clusters.foldl (nearestStep p) none

/-! ## Similarity searcher (EmbeddingService.find_similar_persons, 217-242) -/

/-- The distance from the query point to corpus row i (the entries of the
distances array of line 234).  Indices produced by the argsort are always in
range, so the getD default is never reached. -/
noncomputable def simKey (p : Pt) (cs : List Pt) (i : ℕ) : ℝ :=
  dist3 p (cs.getD i pt0)

/-- A total preorder refining ascending distance (ties resolved by the
original position).  It is used only to realize one admissible argsort
output computably; no theorem relies on its tie order. -/
def SimRel (p : Pt) (cs : List Pt) (i j : ℕ) : Prop :=
  simKey p cs i < simKey p cs j ∨ (simKey p cs i = simKey p cs j ∧ i ≤ j)

instance simRelDec (p : Pt) (cs : List Pt) : DecidableRel (SimRel p cs) := fun i j =>
  decidable_of_iff
    (distSq p (cs.getD i pt0) < distSq p (cs.getD j pt0)
      ∨ (distSq p (cs.getD i pt0) = distSq p (cs.getD j pt0) ∧ i ≤ j))
    (by rw [SimRel, simKey, simKey, dist3_lt_iff, dist3_eq_iff])

instance simRelTotal (p : Pt) (cs : List Pt) : IsTotal ℕ (SimRel p cs) := by
  constructor
  intro i j
  rcases lt_trichotomy (simKey p cs i) (simKey p cs j) with h | h | h
  · exact Or.inl (Or.inl h)
  · rcases Nat.le_total i j with hij | hij
    · exact Or.inl (Or.inr ⟨h, hij⟩)
    · exact Or.inr (Or.inr ⟨h.symm, hij⟩)
  · exact Or.inr (Or.inl h)

instance simRelTrans (p : Pt) (cs : List Pt) : IsTrans ℕ (SimRel p cs) := by
  constructor
  intro i j k hij hjk
  rcases hij with hij | ⟨hij, hij'⟩
  · rcases hjk with hjk | ⟨hjk, _⟩
    · exact Or.inl (hij.trans hjk)
    · exact Or.inl (hjk ▸ hij)
  · rcases hjk with hjk | ⟨hjk, hjk'⟩
    · exact Or.inl (hij ▸ hjk)
    · exact Or.inr ⟨hij.trans hjk, hij'.trans hjk'⟩

/-- numpy.argsort(distances) of line 237.  numpy documents only that the
result is a permutation of 0..N-1 along which the distances are
non-decreasing; the default kind (introsort) is not stable, so the order of
tied keys is not part of the contract.  This executable definition realizes
one admissible output (sorting on (distance, index)); every
similarity-search theorem goes through the contract SortsDistances alone
and therefore holds for any admissible output. -/
def argsortDist (p : Pt) (cs : List Pt) : List ℕ :=
  @List.insertionSort ℕ (SimRel p cs) (simRelDec p cs) (List.range cs.length)

/-- The documented contract of np.argsort(distances), independent of the
sort kind: a permutation of the row indices 0..N-1 along which the
distances are non-decreasing.  Nothing more is guaranteed at ties. -/
def SortsDistances (p : Pt) (cs : List Pt) (A : List ℕ) : Prop :=
  A.Perm (List.range cs.length)
    ∧ A.Pairwise (fun i j => dist3 p (cs.getD i pt0) ≤ dist3 p (cs.getD j pt0))

/-- Python list/array slicing l[:k]: for nonnegative k the first k elements,
for negative k the first len(l) + k elements (clamped at zero). -/
def pySliceTo {α : Type} (l : List α) (k : ℤ) : List α :=
  if 0 ≤ k then l.take k.toNat else l.take ((l.length : ℤ) + k).toNat

/-- EmbeddingService.find_similar_persons: distances to every corpus row,
argsort, slice to top_k, pair row ids with their distances.  The source
indexes all_person_ids[i] under the CorpusIndex invariant that both arrays
have equal length, so the getD defaults are never reached there. -/
noncomputable def find_similar_persons (p : Pt) (all_person_ids : List String)
    (all_coordinates : List Pt) (top_k : ℤ) : List (String × ℝ) :=
  (pySliceTo (argsortDist p all_coordinates) top_k).map
    (fun i => (all_person_ids.getD i "", dist3 p (all_coordinates.getD i pt0)))

/-- One call against the service; the four query operations are listed with
their arguments so that traces of calls can be formed. -/
inductive ServiceOp where
  | load (pca : List ℚ → List ℚ) (umap : List ℚ → Pt)
  | project (v : List ℚ)
  | nearestCluster (p : Pt) (clusters : List ClusterInfo)
  | similar (p : Pt) (ids : List String) (coords : List Pt) (k : ℤ)
  | narrative (events : List LifeEvent) (name description : Option String)

/-- The state transition of one service call.  load_reduction_models is the
only method whose body assigns to self; project_to_3d, find_nearest_cluster,
find_similar_persons and create_narrative_from_events read the state (or not
at all) and leave it unchanged. -/
def applyOp (s : EmbeddingService) : ServiceOp → EmbeddingService
  | ServiceOp.load pca umap => load_reduction_models s pca umap
  | ServiceOp.project _ => s
  | ServiceOp.nearestCluster _ _ => s
  | ServiceOp.similar _ _ _ _ => s
  | ServiceOp.narrative _ _ _ => s

/-! ## Basic facts about distances -/

theorem dist3_nonneg (p q : Pt) : 0 ≤ dist3 p q :=
  Real.sqrt_nonneg _

theorem dist3_le_iff (p a b : Pt) :
    dist3 p a ≤ dist3 p b ↔ distSq p a ≤ distSq p b := by
  constructor
  · intro h
    by_contra hlt
    push_neg at hlt
    exact absurd ((dist3_lt_iff p b a).mpr hlt) (not_lt.mpr h)
  · intro h
    rcases lt_or_eq_of_le h with hlt | heq
    · exact le_of_lt ((dist3_lt_iff p a b).mpr hlt)
    · exact le_of_eq ((dist3_eq_iff p a b).mpr heq)

theorem distSq_eq_zero_iff (p q : Pt) : distSq p q = 0 ↔ q = p := by
  constructor
  · intro h
    obtain ⟨a, b, c⟩ := p
    obtain ⟨d, e, f⟩ := q
    simp only [distSq] at h
    have hx : (a - d) ^ 2 = 0 := by
      have h1 := sq_nonneg (a - d)
      have h2 := sq_nonneg (b - e)
      have h3 := sq_nonneg (c - f)
      nlinarith
    have hy : (b - e) ^ 2 = 0 := by
      have h1 := sq_nonneg (a - d)
      have h2 := sq_nonneg (b - e)
      have h3 := sq_nonneg (c - f)
      nlinarith
    have hz : (c - f) ^ 2 = 0 := by
      have h1 := sq_nonneg (a - d)
      have h2 := sq_nonneg (b - e)
      have h3 := sq_nonneg (c - f)
      nlinarith
    have hx' : a = d := by
      have := (pow_eq_zero_iff (two_ne_zero)).mp hx
      linarith [sub_eq_zero.mp this]
    have hy' : b = e := by
      have := (pow_eq_zero_iff (two_ne_zero)).mp hy
      linarith [sub_eq_zero.mp this]
    have hz' : c = f := by
      have := (pow_eq_zero_iff (two_ne_zero)).mp hz
      linarith [sub_eq_zero.mp this]
    simp [hx', hy', hz']
  · intro h
    subst h
    simp [distSq]

theorem dist3_eq_zero_iff (p q : Pt) : dist3 p q = 0 ↔ q = p := by
  unfold dist3
  rw [Real.sqrt_eq_zero']
  constructor
  · intro h
    have h0 : distSq p q ≤ 0 := by exact_mod_cast h
    exact (distSq_eq_zero_iff p q).mp (le_antisymm h0 (distSq_nonneg p q))
  · intro h
    subst h
    simp [distSq]

theorem dist3_self (p : Pt) : dist3 p p = 0 :=
  (dist3_eq_zero_iff p p).mpr rfl

theorem distLtB_iff (p a b : Pt) : distLtB p a b = true ↔ dist3 p a < dist3 p b := by
  unfold distLtB
  rw [decide_eq_true_iff, dist3_lt_iff]

theorem distLtB_false_iff (p a b : Pt) :
    distLtB p a b = false ↔ dist3 p b ≤ dist3 p a := by
  rw [← Bool.not_eq_true, distLtB_iff, not_lt]

/-! ## The cluster locator scan -/

theorem foldl_nearestStep_spec (p : Pt) :
    ∀ (cs : List ClusterInfo) (b : ClusterInfo),
      ∃ c, List.foldl (nearestStep p) (some b) cs = some c
        ∧ (∃ l1 l2, b :: cs = l1 ++ c :: l2
            ∧ ∀ x ∈ l1, dist3 p c.avg_coordinates < dist3 p x.avg_coordinates)
        ∧ (∀ x ∈ b :: cs, dist3 p c.avg_coordinates ≤ dist3 p x.avg_coordinates) := by
  intro cs
  induction cs with
  | nil =>
      intro b
      exact ⟨b, rfl, ⟨[], [], rfl, by simp⟩, by simp⟩
  | cons c2 rest ih =>
      intro b
      rcases Or.symm (Bool.eq_false_or_eq_true
        (distLtB p c2.avg_coordinates b.avg_coordinates)) with hb | hb
      · -- dist to c2 is not smaller: keep b
        have hble : dist3 p b.avg_coordinates ≤ dist3 p c2.avg_coordinates :=
          (distLtB_false_iff p c2.avg_coordinates b.avg_coordinates).mp hb
        obtain ⟨c, hfold, ⟨l1, l2, hdec, hstrict⟩, hmin⟩ := ih b
        refine ⟨c, ?_, ?_, ?_⟩
        · have hstep : nearestStep p (some b) c2 = some b := by
            simp [nearestStep, hb]
          rw [List.foldl_cons, hstep]
          exact hfold
        · cases l1 with
          | nil =>
              simp only [List.nil_append] at hdec
              injection hdec with hcb hl2
              exact ⟨[], c2 :: rest, by simp [hcb], by simp⟩
          | cons b' l1' =>
              simp only [List.cons_append] at hdec
              injection hdec with hbb' hrest
              refine ⟨b :: c2 :: l1', l2, by simp [hrest], ?_⟩
              intro x hx
              rcases List.mem_cons.mp hx with hxb | hx2
              · exact hxb ▸ hbb' ▸ hstrict b' (List.mem_cons_self _ _)
              · rcases List.mem_cons.mp hx2 with hxc | hxl
                · have hcb : dist3 p c.avg_coordinates < dist3 p b.avg_coordinates :=
                    hbb' ▸ hstrict b' (List.mem_cons_self _ _)
                  exact hxc ▸ lt_of_lt_of_le hcb hble
                · exact hstrict x (List.mem_cons.mpr (Or.inr hxl))
        · intro x hx
          rcases List.mem_cons.mp hx with hxb | hx2
          · exact hxb ▸ hmin b (List.mem_cons_self _ _)
          · rcases List.mem_cons.mp hx2 with hxc | hxr
            · exact hxc ▸ le_trans (hmin b (List.mem_cons_self _ _)) hble
            · exact hmin x (List.mem_cons.mpr (Or.inr hxr))
      · -- c2 is strictly closer: replace the best
        have hlt : dist3 p c2.avg_coordinates < dist3 p b.avg_coordinates :=
          (distLtB_iff p c2.avg_coordinates b.avg_coordinates).mp hb
        obtain ⟨c, hfold, ⟨l1, l2, hdec, hstrict⟩, hmin⟩ := ih c2
        refine ⟨c, ?_, ?_, ?_⟩
        · have hstep : nearestStep p (some b) c2 = some c2 := by
            simp [nearestStep, hb]
          rw [List.foldl_cons, hstep]
          exact hfold
        · refine ⟨b :: l1, l2, ?_, ?_⟩
          · simp [hdec]
          · intro x hx
            rcases List.mem_cons.mp hx with hxb | hx1
            · exact hxb ▸ lt_of_le_of_lt (hmin c2 (List.mem_cons_self _ _)) hlt
            · exact hstrict x hx1
        · intro x hx
          rcases List.mem_cons.mp hx with hxb | hx2
          · exact hxb ▸ le_of_lt (lt_of_le_of_lt (hmin c2 (List.mem_cons_self _ _)) hlt)
          · exact hmin x hx2

/-- C5: on a non-empty cluster list, find_nearest_cluster returns a
descriptor at minimum Euclidean distance from the point; every descriptor
strictly earlier in the list is strictly farther (first minimum wins under
the strictly-less-than scan); and when some descriptor is the unique one at
distance 0 from the point, exactly that descriptor is returned. -/
theorem find_nearest_cluster_spec (p : Pt) (clusters : List ClusterInfo)
    (hne : clusters ≠ []) :
    ∃ c, find_nearest_cluster p clusters = some c
      ∧ (∃ l1 l2, clusters = l1 ++ c :: l2
          ∧ ∀ x ∈ l1, dist3 p c.avg_coordinates < dist3 p x.avg_coordinates)
      ∧ (∀ x ∈ clusters, dist3 p c.avg_coordinates ≤ dist3 p x.avg_coordinates)
      ∧ (∀ c0 ∈ clusters, dist3 p c0.avg_coordinates = 0 →
          (∀ x ∈ clusters, dist3 p x.avg_coordinates = 0 → x = c0) →
          find_nearest_cluster p clusters = some c0) := by
  cases clusters with
  | nil => exact absurd rfl hne
  | cons c0 cs =>
      have hstart : find_nearest_cluster p (c0 :: cs)
          = List.foldl (nearestStep p) (some c0) cs := rfl
      obtain ⟨c, hfold, ⟨l1, l2, hdec, hstrict⟩, hmin⟩ := foldl_nearestStep_spec p cs c0
      have hres : find_nearest_cluster p (c0 :: cs) = some c := hstart.trans hfold
      have hcmem : c ∈ c0 :: cs := by
        rw [hdec]
        exact List.mem_append.mpr (Or.inr (List.mem_cons_self _ _))
      refine ⟨c, hres, ⟨l1, l2, hdec, hstrict⟩, hmin, ?_⟩
      intro cz hcz hzero huniq
      have hle : dist3 p c.avg_coordinates ≤ 0 := hzero ▸ hmin cz hcz
      have hceq : c = cz := huniq c hcmem (le_antisymm hle (dist3_nonneg _ _))
      rw [hres, hceq]

/-- Witness for C5 at a concrete one-element cluster list whose centroid
equals the query point. -/
theorem find_nearest_cluster_spec_witness :
    ∃ c, find_nearest_cluster pt0 [⟨7, "home", pt0⟩] = some c
      ∧ (∃ l1 l2, [(⟨7, "home", pt0⟩ : ClusterInfo)] = l1 ++ c :: l2
          ∧ ∀ x ∈ l1, dist3 pt0 c.avg_coordinates < dist3 pt0 x.avg_coordinates)
      ∧ (∀ x ∈ [(⟨7, "home", pt0⟩ : ClusterInfo)],
          dist3 pt0 c.avg_coordinates ≤ dist3 pt0 x.avg_coordinates)
      ∧ (∀ c0 ∈ [(⟨7, "home", pt0⟩ : ClusterInfo)], dist3 pt0 c0.avg_coordinates = 0 →
          (∀ x ∈ [(⟨7, "home", pt0⟩ : ClusterInfo)],
            dist3 pt0 x.avg_coordinates = 0 → x = c0) →
          find_nearest_cluster pt0 [⟨7, "home", pt0⟩] = some c0) :=
  find_nearest_cluster_spec pt0 [⟨7, "home", pt0⟩] (List.cons_ne_nil _ _)

/-- C10: called with an empty cluster list, find_nearest_cluster raises
nothing and returns the absent value. -/
theorem find_nearest_cluster_empty (p : Pt) : find_nearest_cluster p [] = none :=
  rfl

/-- C4: projecting with the load flag down (in particular on the freshly
constructed service) fails with the ModelNotReady condition, and projecting
on any state produced by load_reduction_models succeeds outright with the
composite of the two loaded stages. -/
theorem project_to_3d_guard :
    (∀ v, project_to_3d initService v = Except.error ProjError.modelNotReady)
    ∧ (∀ s v, s.models_loaded = false →
        project_to_3d s v = Except.error ProjError.modelNotReady)
    ∧ (∀ s pca umap v,
        project_to_3d (load_reduction_models s pca umap) v = Except.ok (umap (pca v))) := by
  refine ⟨fun v => rfl, ?_, ?_⟩
  · intro s v h
    simp [project_to_3d, h]
  · intro s pca umap v
    rfl

/-- Witness for C4: the fresh service rejects a projection with
ModelNotReady, and after loading two concrete stage models the same call
succeeds. -/
theorem project_to_3d_guard_witness :
    project_to_3d initService [] = Except.error ProjError.modelNotReady
    ∧ project_to_3d (load_reduction_models initService (fun v => v) (fun _ => pt0)) []
        = Except.ok pt0 :=
  ⟨project_to_3d_guard.2.1 initService [] rfl,
   project_to_3d_guard.2.2 initService (fun v => v) (fun _ => pt0) []⟩

/-- C9: the load flag starts down, load_reduction_models raises it, the four
query operations leave the whole service state (flag and models) unchanged,
and along any trace of service calls a raised flag never goes down again. -/
theorem load_flag_monotonic :
    initService.models_loaded = false
    ∧ (∀ s pca umap, (load_reduction_models s pca umap).models_loaded = true)
    ∧ (∀ s v, applyOp s (ServiceOp.project v) = s)
    ∧ (∀ s q cls, applyOp s (ServiceOp.nearestCluster q cls) = s)
    ∧ (∀ s q ids coords k, applyOp s (ServiceOp.similar q ids coords k) = s)
    ∧ (∀ s evs nm dsc, applyOp s (ServiceOp.narrative evs nm dsc) = s)
    ∧ (∀ s (ops : List ServiceOp), s.models_loaded = true →
        (List.foldl applyOp s ops).models_loaded = true) := by
  refine ⟨rfl, fun s pca umap => rfl, fun s v => rfl, fun s q cls => rfl,
    fun s q ids coords k => rfl, fun s evs nm dsc => rfl, ?_⟩
  intro s ops
  induction ops generalizing s with
  | nil => exact fun h => h
  | cons op rest ih =>
      intro h
      rw [List.foldl_cons]
      apply ih
      cases op with
      | load pca umap => rfl
      | project v => exact h
      | nearestCluster q cls => exact h
      | similar q ids coords k => exact h
      | narrative evs nm dsc => exact h

/-- Witness for C9: after a load, a trace of query calls (and another load)
keeps the flag raised. -/
theorem load_flag_monotonic_witness :
    (List.foldl applyOp (load_reduction_models initService (fun v => v) (fun _ => pt0))
      [ServiceOp.project [], ServiceOp.narrative [] none none,
       ServiceOp.nearestCluster pt0 []]).models_loaded = true :=
  load_flag_monotonic.2.2.2.2.2.2
    (load_reduction_models initService (fun v => v) (fun _ => pt0))
    [ServiceOp.project [], ServiceOp.narrative [] none none,
     ServiceOp.nearestCluster pt0 []] rfl

/-! ## The similarity searcher -/

theorem argsortDist_perm (p : Pt) (cs : List Pt) :
    (argsortDist p cs).Perm (List.range cs.length) :=
  List.perm_insertionSort _ _

theorem argsortDist_length (p : Pt) (cs : List Pt) :
    (argsortDist p cs).length = cs.length :=
  ((argsortDist_perm p cs).length_eq).trans (List.length_range _)

theorem argsortDist_nodup (p : Pt) (cs : List Pt) : (argsortDist p cs).Nodup :=
  ((argsortDist_perm p cs).symm).nodup (List.nodup_range _)

theorem argsortDist_mem_iff (p : Pt) (cs : List Pt) (i : ℕ) :
    i ∈ argsortDist p cs ↔ i < cs.length := by
  rw [(argsortDist_perm p cs).mem_iff, List.mem_range]

theorem argsortDist_sorted (p : Pt) (cs : List Pt) :
    List.Pairwise (SimRel p cs) (argsortDist p cs) :=
  List.sorted_insertionSort _ _

theorem pySliceTo_ofNat {α : Type} (l : List α) (k : ℤ) (h : 0 ≤ k) :
    pySliceTo l k = l.take k.toNat := by
  simp [pySliceTo, h]

theorem pySliceTo_neg {α : Type} (l : List α) (k : ℤ) (h : k < 0) :
    pySliceTo l k = l.take ((l.length : ℤ) + k).toNat := by
  simp [pySliceTo, not_le.mpr h]

theorem length_pySliceTo_neg {α : Type} (l : List α) (k : ℤ) (h : k < 0) :
    (pySliceTo l k).length = ((l.length : ℤ) + k).toNat := by
  rw [pySliceTo_neg l k h, List.length_take]
  have hle : ((l.length : ℤ) + k).toNat ≤ l.length := by omega
  omega

/-- C2, amended: for nonnegative k the result length is min(k, N); k = 0
yields the empty list; but a negative k is interpreted by Python slice
semantics, yielding the first max(N + k, 0) entries rather than none. -/
theorem find_similar_persons_length (p : Pt) (ids : List String) (cs : List Pt)
    (k : ℤ) :
    (0 ≤ k → (find_similar_persons p ids cs k).length = min k.toNat cs.length)
    ∧ (k < 0 →
        (find_similar_persons p ids cs k).length = ((cs.length : ℤ) + k).toNat)
    ∧ (k = 0 → find_similar_persons p ids cs k = []) := by
  refine ⟨?_, ?_, ?_⟩
  · intro h
    rw [find_similar_persons, List.length_map, pySliceTo_ofNat _ k h,
      List.length_take, argsortDist_length]
  · intro h
    rw [find_similar_persons, List.length_map, length_pySliceTo_neg _ k h,
      argsortDist_length]
  · intro h
    subst h
    rw [find_similar_persons, pySliceTo_ofNat _ 0 le_rfl]
    simp

/-- Witness for C2 at k = 0, k = 1, k = N + 5 and k = N on a two-row corpus. -/
theorem find_similar_persons_length_witness :
    find_similar_persons pt0 ["a", "b"] [pt0, ⟨1, 0, 0⟩] 0 = []
    ∧ (find_similar_persons pt0 ["a", "b"] [pt0, ⟨1, 0, 0⟩] 1).length = 1
    ∧ (find_similar_persons pt0 ["a", "b"] [pt0, ⟨1, 0, 0⟩] 2).length = 2
    ∧ (find_similar_persons pt0 ["a", "b"] [pt0, ⟨1, 0, 0⟩] 7).length = 2 :=
  ⟨(find_similar_persons_length pt0 ["a", "b"] [pt0, ⟨1, 0, 0⟩] 0).2.2 rfl,
   ((find_similar_persons_length pt0 ["a", "b"] [pt0, ⟨1, 0, 0⟩] 1).1 (by decide)).trans
     (by decide),
   ((find_similar_persons_length pt0 ["a", "b"] [pt0, ⟨1, 0, 0⟩] 2).1 (by decide)).trans
     (by decide),
   ((find_similar_persons_length pt0 ["a", "b"] [pt0, ⟨1, 0, 0⟩] 7).1 (by decide)).trans
     (by decide)⟩

/-- Counterexample to C2 as stated: with a corpus of two rows and k = -1 the
call returns one pair, not the empty sequence, because the slice
distances-argsort[:-1] drops only the last entry. -/
theorem find_similar_persons_neg_k_cex :
    (find_similar_persons pt0 ["a", "b"] [pt0, ⟨1, 0, 0⟩] (-1)).length = 1
    ∧ find_similar_persons pt0 ["a", "b"] [pt0, ⟨1, 0, 0⟩] (-1) ≠ [] := by
  have h1 : (find_similar_persons pt0 ["a", "b"] [pt0, ⟨1, 0, 0⟩] (-1)).length = 1 := by
    rw [find_similar_persons, List.length_map,
      length_pySliceTo_neg _ (-1) (by decide), argsortDist_length]
    decide
  refine ⟨h1, ?_⟩
  intro hc
  rw [hc] at h1
  simp at h1

/-- The concrete argsort realization satisfies the documented contract of
np.argsort: it permutes the row indices and carries the distances in
non-decreasing order. -/
theorem argsortDist_sortsDistances (p : Pt) (cs : List Pt) :
    SortsDistances p cs (argsortDist p cs) := by
  refine ⟨argsortDist_perm p cs, (argsortDist_sorted p cs).imp ?_⟩
  intro i j hr
  rcases hr with h | ⟨he, _⟩
  · exact le_of_lt h
  · exact le_of_eq he

/-- The kind-independent top-k properties of the similarity search: they
hold for the slice of EVERY index list admitted by the argsort contract,
whatever order an unstable sort gives to tied distances. -/
theorem topk_props_of_sortsDistances (p : Pt) (ids : List String) (cs : List Pt)
    (A : List ℕ) (hA : SortsDistances p cs A) (k : ℤ) (hk : 0 < k) :
    ∃ sel : List ℕ,
      (pySliceTo A k).map (fun i => (ids.getD i "", dist3 p (cs.getD i pt0)))
          = sel.map (fun i => (ids.getD i "", dist3 p (cs.getD i pt0)))
        ∧ sel.Nodup
        ∧ (∀ i ∈ sel, i < cs.length)
        ∧ sel.length = min k.toNat cs.length
        ∧ sel.Pairwise (fun i j =>
            dist3 p (cs.getD i pt0) ≤ dist3 p (cs.getD j pt0))
        ∧ (∀ i ∈ sel, ∀ j, j < cs.length → j ∉ sel →
            dist3 p (cs.getD i pt0) ≤ dist3 p (cs.getD j pt0))
        ∧ (∀ i, i < cs.length → cs.getD i pt0 = p →
            (∀ j, j < cs.length → j ≠ i → cs.getD j pt0 ≠ p) →
            ((pySliceTo A k).map
                (fun i => (ids.getD i "", dist3 p (cs.getD i pt0)))).head?
              = some (ids.getD i "", 0)) := by
  obtain ⟨hperm, hsorted⟩ := hA
  have hAlen : A.length = cs.length := hperm.length_eq.trans (List.length_range _)
  have hmemA : ∀ i, i ∈ A ↔ i < cs.length := fun i => by
    rw [hperm.mem_iff, List.mem_range]
  have hnodupA : A.Nodup := hperm.symm.nodup (List.nodup_range _)
  have hslice : pySliceTo A k = A.take k.toNat := pySliceTo_ofNat A k hk.le
  have hsub : (A.take k.toNat).Sublist A := List.take_sublist _ _
  have hsplit : A.take k.toNat ++ A.drop k.toNat = A := List.take_append_drop _ _
  refine ⟨A.take k.toNat, by rw [hslice], List.Nodup.sublist hsub hnodupA,
    fun i hi => (hmemA i).mp (hsub.subset hi), ?_, ?_, ?_, ?_⟩
  · rw [List.length_take, hAlen]
  · exact List.Pairwise.sublist hsub hsorted
  · have hsortsplit : List.Pairwise
        (fun i j => dist3 p (cs.getD i pt0) ≤ dist3 p (cs.getD j pt0))
        (A.take k.toNat ++ A.drop k.toNat) := by
      rw [hsplit]
      exact hsorted
    have hcross := (List.pairwise_append.mp hsortsplit).2.2
    intro i hi j hj hnj
    have hjA : j ∈ A := (hmemA j).mpr hj
    rw [← hsplit] at hjA
    rcases List.mem_append.mp hjA with h | h
    · exact absurd h hnj
    · exact hcross i hi j h
  · intro i hi hip hothers
    obtain ⟨h, t, hht⟩ : ∃ h t, A = h :: t := by
      cases hAe : A with
      | nil =>
          rw [hAe] at hAlen
          simp at hAlen
          omega
      | cons x xs => exact ⟨x, xs, rfl⟩
    have hminh : ∀ j ∈ t, dist3 p (cs.getD h pt0) ≤ dist3 p (cs.getD j pt0) :=
      (List.pairwise_cons.mp (hht ▸ hsorted)).1
    have hhlt : h < cs.length := (hmemA h).mp (hht ▸ List.mem_cons_self h t)
    have hhi : h = i := by
      by_contra hne
      have hhp : cs.getD h pt0 ≠ p := hothers h hhlt hne
      have hiA : i ∈ A := (hmemA i).mpr hi
      have hit : i ∈ t := by
        rcases List.mem_cons.mp (hht ▸ hiA) with he | ht2
        · exact absurd he.symm hne
        · exact ht2
      have hle : dist3 p (cs.getD h pt0) ≤ dist3 p (cs.getD i pt0) := hminh i hit
      rw [hip, dist3_self] at hle
      have h0 : dist3 p (cs.getD h pt0) = 0 := le_antisymm hle (dist3_nonneg _ _)
      exact hhp ((dist3_eq_zero_iff _ _).mp h0)
    obtain ⟨m, hm⟩ : ∃ m, k.toNat = m + 1 := ⟨k.toNat - 1, by omega⟩
    have hselcons : pySliceTo A k = h :: t.take m := by
      rw [hslice, hht, hm]
      rfl
    rw [hselcons]
    simp only [List.map_cons, List.head?_cons]
    rw [hhi, hip, dist3_self]

/-- C1, amended: for positive k, find_similar_persons returns min(k, N)
pairs (person_id, distance) drawn from distinct rows, sorted ascending by
distance, with every returned row at distance no larger than every
unreturned row (a k-smallest selection); the order among rows at exactly
equal distance is not guaranteed (np.argsort's default introsort is
unstable), and when the point equals coordinates[i] exactly and equals no
other row, (person_ids[i], 0.0) is the first element.  Proved through the
argsort contract only, so it holds for every admissible argsort output. -/
theorem find_similar_persons_topk (p : Pt) (ids : List String) (cs : List Pt)
    (k : ℤ) (hlen : ids.length = cs.length) (hk : 0 < k) :
    ∃ sel : List ℕ,
      find_similar_persons p ids cs k
          = sel.map (fun i => (ids.getD i "", dist3 p (cs.getD i pt0)))
        ∧ sel.Nodup
        ∧ (∀ i ∈ sel, i < cs.length)
        ∧ sel.length = min k.toNat cs.length
        ∧ sel.Pairwise (fun i j =>
            dist3 p (cs.getD i pt0) ≤ dist3 p (cs.getD j pt0))
        ∧ (∀ i ∈ sel, ∀ j, j < cs.length → j ∉ sel →
            dist3 p (cs.getD i pt0) ≤ dist3 p (cs.getD j pt0))
        ∧ (∀ i, i < cs.length → cs.getD i pt0 = p →
            (∀ j, j < cs.length → j ≠ i → cs.getD j pt0 ≠ p) →
            (find_similar_persons p ids cs k).head? = some (ids.getD i "", 0)) :=
  topk_props_of_sortsDistances p ids cs (argsortDist p cs)
    (argsortDist_sortsDistances p cs) k hk

/-- Witness for C1 on a two-row corpus queried at its first row (the only
row equal to the query point) with k = 1: the first returned pair is that
row's id at distance zero. -/
theorem find_similar_persons_topk_witness :
    (find_similar_persons pt0 ["a", "b"] [pt0, ⟨1, 0, 0⟩] 1).head? = some ("a", 0) := by
  obtain ⟨sel, hmap, hnd, hmem, hlen, hpair, hbound, hhead⟩ :=
    find_similar_persons_topk pt0 ["a", "b"] [pt0, ⟨1, 0, 0⟩] 1 rfl (by decide)
  apply hhead 0 (by decide) rfl
  intro j hj hj0
  rw [show ([pt0, (⟨1, 0, 0⟩ : Pt)] : List Pt).length = 2 from rfl] at hj
  have hj1 : j = 1 := by omega
  subst hj1
  intro hcontra
  exact one_ne_zero (congrArg Pt.x hcontra)

/-- Counterexample to C1 as stated: with corpus rows [p, p] and ids
["a", "b"], the claim's first-element clause applies at i = 0 and at i = 1
simultaneously, demanding the single first returned pair be both ("a", 0.0)
and ("b", 0.0).  No deterministic return value satisfies that, whatever
order the sort gives the two tied rows, so the claim is false at this
input. -/
theorem find_similar_persons_dup_cex :
    ¬ (∀ i, i < 2 → List.getD [pt0, pt0] i pt0 = pt0 →
        (find_similar_persons pt0 ["a", "b"] [pt0, pt0] 2).head?
          = some (List.getD ["a", "b"] i "", 0)) := by
  intro h
  have h0 := h 0 (by omega) rfl
  have h1 := h 1 (by omega) rfl
  rw [h0] at h1
  have hpaireq : ((("a" : String), (0 : ℝ))) = (("b" : String), (0 : ℝ)) :=
    Option.some.inj h1
  have hab : ("a" : String) = "b" := congrArg Prod.fst hpaireq
  exact absurd hab (by decide)


/-! ## Narrative synthesis -/

theorem pyJoin_decomp (sep : String) :
    ∀ (l : List String) (x : String), x ∈ l →
      ∃ p q : String, pyJoin sep l = p ++ (x ++ q) := by
  intro l
  induction l with
  | nil =>
      intro x hx
      exact absurd hx (List.not_mem_nil x)
  | cons a rest ih =>
      intro x hx
      cases rest with
      | nil =>
          rcases List.mem_cons.mp hx with hxa | hxr
          · refine ⟨"", "", ?_⟩
            rw [hxa]
            simp [pyJoin]
          · exact absurd hxr (List.not_mem_nil x)
      | cons b rest2 =>
          rcases List.mem_cons.mp hx with hxa | hxr
          · refine ⟨"", sep ++ pyJoin sep (b :: rest2), ?_⟩
            rw [hxa]
            simp [pyJoin, String.append_assoc]
          · obtain ⟨p, q, hpq⟩ := ih x hxr
            refine ⟨a ++ sep ++ p, q, ?_⟩
            simp [pyJoin, hpq, String.append_assoc]

theorem strContains_trans (s x y : String) (h1 : strContains s x)
    (h2 : strContains x y) : strContains s y := by
  obtain ⟨P, Q, hPQ⟩ := h1
  obtain ⟨P2, Q2, hPQ2⟩ := h2
  refine ⟨P ++ P2, Q2 ++ Q, ?_⟩
  rw [hPQ, hPQ2]
  simp [String.append_assoc]

theorem mem_data_of_strContains (s x : String) (c : Char) (h : strContains s x)
    (hc : c ∈ x.data) : c ∈ s.data := by
  obtain ⟨P, Q, hPQ⟩ := h
  rw [hPQ, String.data_append, String.data_append]
  exact List.mem_append.mpr (Or.inr (List.mem_append.mpr (Or.inl hc)))

theorem mem_data_append_left (s t : String) (c : Char) (h : c ∈ s.data) :
    c ∈ (s ++ t).data := by
  rw [String.data_append]
  exact List.mem_append.mpr (Or.inl h)

/-- A narrative part holding any non-whitespace character survives into the
final narrative: the join cannot strip to empty, so the fallback branch is
not taken and the part is a substring of the output. -/
theorem create_narrative_contains (es : List LifeEvent) (n d : Option String)
    (x : String) (c : Char) (hx : x ∈ narrativeParts es n d) (hc : c ∈ x.data)
    (hw : c.isWhitespace = false) :
    strContains (create_narrative_from_events es n d) x := by
  obtain ⟨P, Q, hPQ⟩ := pyJoin_decomp " " (narrativeParts es n d) x hx
  have hcj : c ∈ (pyJoin " " (narrativeParts es n d)).data := by
    rw [hPQ, String.data_append, String.data_append]
    exact List.mem_append.mpr (Or.inr (List.mem_append.mpr (Or.inl hc)))
  have hall : ¬ ((pyJoin " " (narrativeParts es n d)).data.all Char.isWhitespace = true) := by
    intro hA
    have := List.all_eq_true.mp hA c hcj
    rw [hw] at this
    exact Bool.false_ne_true this
  simp only [create_narrative_from_events]
  rw [if_neg hall]
  exact ⟨P, Q, hPQ⟩

/-- C6: narrative synthesis is total and never returns the empty string;
whenever the joined parts are empty or whitespace-only the result is exactly
the fixed fallback sentence — in particular for no events, no name and no
description. -/
theorem create_narrative_total (es : List LifeEvent) (n d : Option String) :
    create_narrative_from_events es n d ≠ ""
    ∧ ((pyJoin " " (narrativeParts es n d)).data.all Char.isWhitespace = true →
        create_narrative_from_events es n d = fallbackNarrative)
    ∧ (es = [] → n = none → d = none →
        create_narrative_from_events es n d = fallbackNarrative) := by
  have hbranch : ∀ hall : (pyJoin " " (narrativeParts es n d)).data.all
      Char.isWhitespace = true,
      create_narrative_from_events es n d = fallbackNarrative := by
    intro hall
    simp only [create_narrative_from_events]
    rw [if_pos hall]
  refine ⟨?_, hbranch, ?_⟩
  · by_cases hall : (pyJoin " " (narrativeParts es n d)).data.all Char.isWhitespace = true
    · rw [hbranch hall]
      decide
    · have hjoin : create_narrative_from_events es n d
          = pyJoin " " (narrativeParts es n d) := by
        simp only [create_narrative_from_events]
        rw [if_neg hall]
      rw [hjoin]
      intro hemp
      rw [hemp] at hall
      exact hall rfl
  · intro h1 h2 h3
    subst h1
    subst h2
    subst h3
    decide

/-- Witness for C6: the empty request synthesizes exactly the fallback
sentence. -/
theorem create_narrative_total_witness :
    create_narrative_from_events [] none none = fallbackNarrative :=
  (create_narrative_total [] none none).2.2 rfl rfl rfl

/-- C3, amended: an education event labels as "{title} from {organization}"
when both are truthy and as the bare title when only the title is truthy,
but an organization-only (or titleless) event contributes no label; a single
label x puts "Studied x." into the output, several labels put the
comma-plus-"and" joined "Educational background includes ..." sentence. -/
theorem education_sentence_spec (es : List LifeEvent) (n d : Option String) :
    (∀ e : LifeEvent, titleOf e ≠ "" → orgOf e ≠ "" →
        eduLabel e = some (titleOf e ++ " from " ++ orgOf e))
    ∧ (∀ e : LifeEvent, titleOf e ≠ "" → orgOf e = "" →
        eduLabel e = some (titleOf e))
    ∧ (∀ e : LifeEvent, titleOf e = "" → eduLabel e = none)
    ∧ (∀ x, eduParts es = [x] →
        strContains (create_narrative_from_events es n d) ("Studied " ++ x ++ "."))
    ∧ (∀ x l, eduParts es = x :: l → l ≠ [] →
        strContains (create_narrative_from_events es n d)
          ("Educational background includes " ++ pyJoin ", " ((x :: l).dropLast)
            ++ " and " ++ (x :: l).getLastD "" ++ ".")) := by
  refine ⟨?_, ?_, ?_, ?_, ?_⟩
  · intro e h1 h2
    unfold eduLabel
    rw [if_pos ⟨h1, h2⟩]
  · intro e h1 h2
    unfold eduLabel
    rw [if_neg (fun hand => hand.2 h2), if_pos h1]
  · intro e h
    unfold eduLabel
    rw [if_neg (fun hand => hand.1 h), if_neg (fun ht => ht h)]
  · intro x hx
    have hsent : eduSentencePart (eduParts es) = ["Studied " ++ x ++ "."] := by
      rw [hx]
      simp [eduSentencePart]
    have hmem : ("Studied " ++ x ++ ".") ∈ narrativeParts es n d := by
      simp [narrativeParts, hsent]
    exact create_narrative_contains es n d _ 'S' hmem
      (mem_data_append_left _ "." 'S' (mem_data_append_left "Studied " x 'S' (by decide)))
      (by decide)
  · intro x l hx hl
    have hl0 : l.length ≠ 0 := fun h0 => hl (List.length_eq_zero.mp h0)
    have h0 : ¬ ((x :: l).length = 0) := by simp
    have h1 : ¬ ((x :: l).length = 1) := by
      simp only [List.length_cons]
      omega
    have hsent : eduSentencePart (eduParts es)
        = ["Educational background includes " ++ pyJoin ", " ((x :: l).dropLast)
            ++ " and " ++ (x :: l).getLastD "" ++ "."] := by
      rw [hx]
      unfold eduSentencePart
      rw [if_neg h0, if_neg h1]
    have hmem : ("Educational background includes " ++ pyJoin ", " ((x :: l).dropLast)
        ++ " and " ++ (x :: l).getLastD "" ++ ".") ∈ narrativeParts es n d := by
      simp [narrativeParts, hsent]
    refine create_narrative_contains es n d _ 'E' hmem ?_ (by decide)
    exact mem_data_append_left _ "." 'E' (mem_data_append_left _ _ 'E'
      (mem_data_append_left _ _ 'E'
        (mem_data_append_left "Educational background includes " _ 'E' (by decide))))

/-- Witness for C3 on the single PhD/MIT education event of the spec's test
list: the output contains "Studied PhD from MIT.". -/
theorem education_sentence_spec_witness :
    strContains
      (create_narrative_from_events
        [{ event_type := some "education", event_title := some "PhD",
           organization := some "MIT" }] none none)
      ("Studied " ++ "PhD from MIT" ++ ".") :=
  (education_sentence_spec
    [{ event_type := some "education", event_title := some "PhD",
       organization := some "MIT" }] none none).2.2.2.1 "PhD from MIT" (by decide)

/-- Counterexample to C3 as stated: an education event carrying only an
organization ("MIT", no title) contributes no label at all — the narrative
degrades to the fallback sentence and does not contain "Studied MIT.",
though the claim promises the label "MIT" and the sentence "Studied MIT.". -/
theorem education_org_only_cex :
    create_narrative_from_events
        [{ event_type := some "education", organization := some "MIT" }] none none
      = fallbackNarrative
    ∧ ¬ strContains
        (create_narrative_from_events
          [{ event_type := some "education", organization := some "MIT" }] none none)
        ("Studied " ++ "MIT" ++ ".") := by
  have hfall : create_narrative_from_events
      [{ event_type := some "education", organization := some "MIT" }] none none
      = fallbackNarrative := by decide
  refine ⟨hfall, ?_⟩
  intro hc
  rw [hfall] at hc
  have hM : ('M' : Char) ∈ fallbackNarrative.data :=
    mem_data_of_strContains _ _ 'M' hc (by decide)
  exact absurd hM (by decide)

/-- C7: the career sentence lists all the employment labels when there are
between one and three of them, and exactly the first three followed by
"and {K} other positions" when there are more; a group yielding four labels
makes the output contain the text "and 1 other positions". -/
theorem employment_sentence_spec (es : List LifeEvent) (n d : Option String) :
    (empParts es ≠ [] → (empParts es).length ≤ 3 →
        strContains (create_narrative_from_events es n d)
          ("Career includes " ++ pyJoin ", " (empParts es) ++ "."))
    ∧ (3 < (empParts es).length →
        strContains (create_narrative_from_events es n d)
          ("Career includes " ++ pyJoin ", " ((empParts es).take 3) ++ " and "
            ++ toString ((empParts es).length - 3) ++ " other positions."))
    ∧ ((empParts es).length = 4 →
        strContains (create_narrative_from_events es n d) "and 1 other positions") := by
  have hbig : ∀ _ : 3 < (empParts es).length,
      strContains (create_narrative_from_events es n d)
        ("Career includes " ++ pyJoin ", " ((empParts es).take 3) ++ " and "
          ++ toString ((empParts es).length - 3) ++ " other positions.") := by
    intro h3
    have h0 : ¬ ((empParts es).length = 0) := by omega
    have hn3 : ¬ ((empParts es).length ≤ 3) := not_le.mpr h3
    have hsent : empSentencePart (empParts es)
        = ["Career includes " ++ pyJoin ", " ((empParts es).take 3) ++ " and "
            ++ toString ((empParts es).length - 3) ++ " other positions."] := by
      unfold empSentencePart
      rw [if_neg h0, if_neg hn3]
    have hmem : ("Career includes " ++ pyJoin ", " ((empParts es).take 3) ++ " and "
        ++ toString ((empParts es).length - 3) ++ " other positions.")
        ∈ narrativeParts es n d := by
      simp [narrativeParts, hsent]
    refine create_narrative_contains es n d _ 'C' hmem ?_ (by decide)
    exact mem_data_append_left _ _ 'C' (mem_data_append_left _ _ 'C'
      (mem_data_append_left _ _ 'C'
        (mem_data_append_left "Career includes " _ 'C' (by decide))))
  refine ⟨?_, hbig, ?_⟩
  · intro hne h3
    have h0 : ¬ ((empParts es).length = 0) := fun h => hne (List.length_eq_zero.mp h)
    have hsent : empSentencePart (empParts es)
        = ["Career includes " ++ pyJoin ", " (empParts es) ++ "."] := by
      unfold empSentencePart
      rw [if_neg h0, if_pos h3]
    have hmem : ("Career includes " ++ pyJoin ", " (empParts es) ++ ".")
        ∈ narrativeParts es n d := by
      simp [narrativeParts, hsent]
    refine create_narrative_contains es n d _ 'C' hmem ?_ (by decide)
    exact mem_data_append_left _ "." 'C'
      (mem_data_append_left "Career includes " _ 'C' (by decide))
  · intro h4
    have hcontains := hbig (by omega)
    rw [h4] at hcontains
    have hsub : strContains
        ("Career includes " ++ pyJoin ", " ((empParts es).take 3) ++ " and "
          ++ toString (4 - 3 : ℕ) ++ " other positions.") "and 1 other positions" := by
      refine ⟨("Career includes " ++ pyJoin ", " ((empParts es).take 3)) ++ " ", ".", ?_⟩
      have hlit : (" and " ++ (toString (4 - 3 : ℕ) ++ " other positions.") : String)
          = " " ++ ("and 1 other positions" ++ ".") := by decide
      simp only [String.append_assoc]
      rw [hlit]
    exact strContains_trans _ _ _ hcontains hsub

/-- Witness for C7 on an employment group of four title-only events: the
output contains "and 1 other positions". -/
theorem employment_sentence_spec_witness :
    strContains
      (create_narrative_from_events
        [{ event_type := some "employment", event_title := some "engineer" },
         { event_type := some "employment", event_title := some "manager" },
         { event_type := some "employment", event_title := some "director" },
         { event_type := some "employment", event_title := some "advisor" }]
        none none)
      "and 1 other positions" :=
  (employment_sentence_spec
    [{ event_type := some "employment", event_title := some "engineer" },
     { event_type := some "employment", event_title := some "manager" },
     { event_type := some "employment", event_title := some "director" },
     { event_type := some "employment", event_title := some "advisor" }]
    none none).2.2 (by decide)

/-- Under an all-truthy-titles hypothesis a guarded filterMap collapses to
the plain map of titles. -/
theorem filterMap_titles_of_truthy :
    ∀ (l : List LifeEvent), (∀ e ∈ l, titleOf e ≠ "") →
      l.filterMap (fun e => if titleOf e ≠ "" then some (titleOf e) else none)
        = l.map titleOf := by
  intro l
  induction l with
  | nil => intro _; rfl
  | cons a rest ih =>
      intro h
      rw [List.filterMap_cons, if_pos (h a (List.mem_cons_self a rest)), List.map_cons,
        ih (fun e he => h e (List.mem_cons.mpr (Or.inr he)))]

/-- C8: with more than five events in the award group the emitted sentence
counts every event of the group (titled or not); with at most five events
and at least one truthy title the emitted sentence lists the truthy titles —
all of them when every event of the group has a truthy title. -/
theorem award_sentence_spec (es : List LifeEvent) (n d : Option String) :
    (5 < (awardGroup es).length →
        strContains (create_narrative_from_events es n d)
          ("Received " ++ toString (awardGroup es).length ++ " awards and honors."))
    ∧ ((awardGroup es).length ≤ 5 → awardNames es ≠ [] →
        strContains (create_narrative_from_events es n d)
          ("Received awards: " ++ pyJoin ", " (awardNames es) ++ "."))
    ∧ ((∀ e ∈ awardGroup es, titleOf e ≠ "") →
        awardNames es = (awardGroup es).map titleOf) := by
  refine ⟨?_, ?_, ?_⟩
  · intro h5
    have h0 : ¬ ((awardGroup es).length = 0) := by omega
    have hn5 : ¬ ((awardGroup es).length ≤ 5) := not_le.mpr h5
    have hsent : awardSentencePart es
        = ["Received " ++ toString (awardGroup es).length ++ " awards and honors."] := by
      unfold awardSentencePart
      rw [if_neg h0, if_neg hn5]
    have hmem : ("Received " ++ toString (awardGroup es).length ++ " awards and honors.")
        ∈ narrativeParts es n d := by
      simp [narrativeParts, hsent]
    refine create_narrative_contains es n d _ 'R' hmem ?_ (by decide)
    exact mem_data_append_left _ _ 'R'
      (mem_data_append_left "Received " _ 'R' (by decide))
  · intro h5 hne
    by_cases h0 : (awardGroup es).length = 0
    · exfalso
      apply hne
      unfold awardNames
      rw [List.length_eq_zero.mp h0]
      rfl
    · have hn0 : ¬ ((awardNames es).length = 0) := fun h => hne (List.length_eq_zero.mp h)
      have hsent : awardSentencePart es
          = ["Received awards: " ++ pyJoin ", " (awardNames es) ++ "."] := by
        unfold awardSentencePart
        rw [if_neg h0, if_pos (by omega : (awardGroup es).length ≤ 5), if_neg hn0]
      have hmem : ("Received awards: " ++ pyJoin ", " (awardNames es) ++ ".")
          ∈ narrativeParts es n d := by
        simp [narrativeParts, hsent]
      refine create_narrative_contains es n d _ 'R' hmem ?_ (by decide)
      exact mem_data_append_left _ "." 'R'
        (mem_data_append_left "Received awards: " _ 'R' (by decide))
  · intro h
    unfold awardNames
    exact filterMap_titles_of_truthy (awardGroup es) h

/-- Witness for C8: a six-event award group is summarized by its count, and
a two-event group lists its two titles. -/
theorem award_sentence_spec_witness :
    strContains
      (create_narrative_from_events
        [{ event_type := some "award", event_title := some "w1" },
         { event_type := some "award", event_title := some "w2" },
         { event_type := some "award", event_title := some "w3" },
         { event_type := some "award", event_title := some "w4" },
         { event_type := some "award", event_title := some "w5" },
         { event_type := some "award" }] none none)
      ("Received " ++ toString (awardGroup
        [{ event_type := some "award", event_title := some "w1" },
         { event_type := some "award", event_title := some "w2" },
         { event_type := some "award", event_title := some "w3" },
         { event_type := some "award", event_title := some "w4" },
         { event_type := some "award", event_title := some "w5" },
         { event_type := some "award" }]).length ++ " awards and honors.")
    ∧ strContains
      (create_narrative_from_events
        [{ event_type := some "award", event_title := some "gold" },
         { event_type := some "award", event_title := some "silver" }] none none)
      ("Received awards: " ++ pyJoin ", " (awardNames
        [{ event_type := some "award", event_title := some "gold" },
         { event_type := some "award", event_title := some "silver" }]) ++ ".") :=
  ⟨(award_sentence_spec
      [{ event_type := some "award", event_title := some "w1" },
       { event_type := some "award", event_title := some "w2" },
       { event_type := some "award", event_title := some "w3" },
       { event_type := some "award", event_title := some "w4" },
       { event_type := some "award", event_title := some "w5" },
       { event_type := some "award" }] none none).1 (by decide),
   (award_sentence_spec
      [{ event_type := some "award", event_title := some "gold" },
       { event_type := some "award", event_title := some "silver" }] none none).2.1
     (by decide) (by decide)⟩

end LifeTraj
